import Mathlib

/-!
# ghal: log streaming and correlation engine

A shallow embedding of the Go packages `ghlogs` (ghlogs.go, ws_types.go, ws_url.go) and
`signalr` (signalr/signalr.go) of aidansteele/ghal, and theorems about it.

Conventions of the embedding.

* Go `string` is `String`, `[]byte` is `List UInt8`, `int64` and `int` are `Int`
  (the program only stores and compares these numbers; `int` is taken to be 64 bits
  wide, as on every 64-bit Go target, so `int(x)` of an `int64` is `x`).
* The records decoded by go-github (`WorkflowJob`, `TaskStep`, `CheckRun`,
  `WorkflowRun`) carry the fields the program reads; the fields are taken as populated,
  as the REST API populates them.
* A Go `map` is an association list with at most one pair per key (`GoMap`): `get` is
  the lookup, `set` the assignment `m[k] = v`.
* Remote calls are inputs: what the REST API answered (`Fetched`), what the resolver
  and the connections returned, what arrived on a channel.
* A Go `error` is a `GoError`; the `nil` error is `none`.
-/

set_option autoImplicit false

/-! ## Go maps -/

namespace GoMap

/-- The lookup `m[k]` of a Go map: `none` when the key is absent. -/
def get {κ ν : Type} [DecidableEq κ] (k : κ) : List (κ × ν) → Option ν
  | [] => none
  | (k', v) :: m => if k' = k then some v else get k m

/-- The assignment `m[k] = v` of a Go map: the entry of an existing key is overwritten. -/
def set {κ ν : Type} [DecidableEq κ] (k : κ) (v : ν) : List (κ × ν) → List (κ × ν)
  | [] => [(k, v)]
  | (k', v') :: m => if k' = k then (k, v) :: m else (k', v') :: set k v m

end GoMap

/-! ## Errors -/

/-- Go error values, as far as the program tells them apart. -/
inductive GoError where
  /-- The sentinel `errJobDone = goerrors.New("Job done")` of ghlogs.go. -/
  | errJobDone
  /-- A `syscall.Errno`. -/
  | errno (n : Nat)
  /-- Any other error value without a wrapped cause. -/
  | other (msg : String)
  /-- The wrapper of `github.com/pkg/errors.WithStack`: it has `Cause` and `Unwrap`. -/
  | withStack (e : GoError)
  /-- A standard-library wrapper (`net.OpError`, `os.SyscallError`, `url.Error`): `Unwrap` only. -/
  | wrapped (msg : String) (e : GoError)
  deriving DecidableEq, Repr

namespace GoError

/-- The value of `syscall.ECONNRESET` (Linux). -/
def ECONNRESET : GoError := errno 104

/-- The function `errors.Is(err, target)` on a non-nil `err`: walk the `Unwrap` chain. -/
def Is (target : GoError) : GoError → Bool
  | withStack e => decide (withStack e = target) || Is target e
  | wrapped m e => decide (wrapped m e = target) || Is target e
  | e => decide (e = target)

/-- The function `errors.Cause(err)` of pkg/errors on a non-nil `err`: strip the wrappers
that implement `Cause`. -/
def Cause : GoError → GoError
  | withStack e => Cause e
  | e => e

end GoError

/-- The function `errors.WithStack(err)`: `nil` stays `nil`. -/
def WithStack : Option GoError → Option GoError
  | none => none
  | some e => some (GoError.withStack e)

/-- The test `errors.Is(err, syscall.ECONNRESET)` on a possibly nil error. -/
def isConnReset : Option GoError → Bool
  | none => false
  | some e => GoError.Is GoError.ECONNRESET e

namespace ghlogs

/-! ## Data model (go-github records and ghlogs.go, ws_types.go) -/

/-- The record `github.TaskStep`. -/
structure TaskStep where
  Name : String
  Status : String
  Number : Int
  deriving DecidableEq, Repr

/-- The record `github.WorkflowJob`. -/
structure WorkflowJob where
  ID : Int
  Name : String
  Status : String
  Steps : List TaskStep
  deriving DecidableEq, Repr

/-- The record `github.CheckRun`. -/
structure CheckRun where
  ID : Int
  ExternalID : String
  deriving DecidableEq, Repr

/-- The record `github.WorkflowRun`. -/
structure WorkflowRun where
  Status : String
  CheckSuiteID : Int
  deriving DecidableEq, Repr

/-- The record `Run` of ghlogs.go. -/
structure Run where
  Owner : String
  Repo : String
  RunId : Int
  deriving DecidableEq, Repr

/-- The record `RunOutput` of ghlogs.go. -/
structure RunOutput where
  Run : Run
  JobName : String
  StepName : String
  StepNumber : Int
  AssumedStepName : Bool
  Lines : List String
  deriving DecidableEq, Repr

/-- The record `consoleOutputMessage` of ws_types.go. -/
structure consoleOutputMessage where
  InternalAzureRunId : Int
  TimelineId : String
  TimelineRecordId : String
  StepRecordId : String
  StartLine : Int
  Lines : List String
  deriving DecidableEq, Repr

/-- The record `jobStatus` of ghlogs.go. -/
structure jobStatus where
  CheckRun : CheckRun
  Job : WorkflowJob
  deriving DecidableEq, Repr

/-- The record `runStatus` of ghlogs.go (the lock is left out: every function below is one
critical section). -/
structure runStatus where
  Run : Run
  Statuses : List (String × jobStatus)
  StepNumbers : List (String × Int)
  run : Option WorkflowRun
  deriving DecidableEq, Repr

/-- What the three REST calls of one `populateRunStatus` answered. -/
structure Fetched where
  jobs : Except GoError (List WorkflowJob)
  run : Except GoError WorkflowRun
  suite : Except GoError (List CheckRun)

/-! ## populateRunStatus (ghlogs.go 248-289) -/

/-- How a call of `populateRunStatus` ends: `nil`, an error, or a nil-pointer panic. -/
inductive Refreshed where
  | ok (rs : runStatus)
  | error (rs : runStatus) (e : GoError)
  | panicked
  deriving DecidableEq, Repr

/-- The first loop of the merge: `checkRunsById[*cr.ID] = cr` for every check-run. -/
def checkRunsById : List CheckRun → List (Int × CheckRun) → List (Int × CheckRun)
  | [], m => m
  | cr :: rest, m => checkRunsById rest (GoMap.set cr.ID cr m)

/-- The second loop of the merge: `rs.Statuses[*cr.ExternalID] = &jobStatus{cr, job}` with
`cr := checkRunsById[*job.ID]`; a job without check-run dereferences nil (`none`). -/
def mergeJobs (byId : List (Int × CheckRun)) :
    List WorkflowJob → List (String × jobStatus) → Option (List (String × jobStatus))
  | [], st => some st
  | job :: rest, st =>
    match GoMap.get job.ID byId with
    | none => none
    | some cr => mergeJobs byId rest (GoMap.set cr.ExternalID ⟨cr, job⟩ st)

/-- The function `populateRunStatus`. -/
def populateRunStatus (f : Fetched) (rs : runStatus) : Refreshed :=
  match f.jobs with
  | .error e => .error rs (.withStack e)
  | .ok jobs =>
    match f.run with
    | .error e => .error { rs with run := none } (.withStack e)
    | .ok r =>
      let rs1 := { rs with run := some r }
      match f.suite with
      | .error e => .error rs1 (.withStack e)
      | .ok suite =>
        match mergeJobs (checkRunsById suite []) jobs rs1.Statuses with
        | none => .panicked
        | some st => .ok { rs1 with Statuses := st }

/-! ## runStatus.step (ghlogs.go 306-336) and run (ghlogs.go 135-167) -/

/-- The loop of `runStatus.step` over `js.Job.Steps`, from the value of `inProgressStep`
reached so far. It yields the step returned and the flag `certain`. -/
def stepLoop (number : Int) : List TaskStep → Option TaskStep → Option TaskStep × Bool
  | [], inProgressStep => (inProgressStep, false)
  | step :: rest, inProgressStep =>
    if step.Number = number then (some step, true)
    else
      let inProgressStepNumber : Int :=
        match inProgressStep with
        | some s => s.Number
        | none => 0
      if step.Number > inProgressStepNumber ∧ step.Status = "in_progress" then
        stepLoop number rest (some step)
      else stepLoop number rest inProgressStep

/-- The method `runStatus.step`: the job, the step and the flag `certain`. A key absent
from `StepNumbers` reads as the zero value 0. -/
def runStatus.step (rs : runStatus) (timelineRecordId stepRecordId : String) :
    Option WorkflowJob × Option TaskStep × Bool :=
  match GoMap.get timelineRecordId rs.Statuses with
  | none => (none, none, false)
  | some js =>
    let number : Int := (GoMap.get stepRecordId rs.StepNumbers).getD 0
    let r := stepLoop number js.Job.Steps none
    (some js.Job, r.1, r.2)

/-- The body of the case `ma := <-ch` of `run`: the event sent on `outch`. -/
def runOutput (rs : runStatus) (ma : consoleOutputMessage) : RunOutput :=
  let r := rs.step ma.TimelineRecordId ma.StepRecordId
  let jobName : String :=
    match r.1 with
    | some job => job.Name
    | none => "?"
  let stepName : String :=
    match r.2.1 with
    | some step => step.Name
    | none => "?"
  let stepNumber : Int :=
    match r.2.1 with
    | some step => if step.Number ≠ 0 then step.Number else 0
    | none => 0
  { Run := rs.Run
    JobName := jobName
    StepName := stepName
    StepNumber := stepNumber
    AssumedStepName := !r.2.2
    Lines := ma.Lines }

/-- What the select of `run` picks: the cancellation, or a batch (with the correlation
state at that moment). -/
inductive runEvent where
  | ctxDone (err : GoError)
  | recv (rs : runStatus) (ma : consoleOutputMessage)

/-- The function `run`: the events sent on `outch` and the error returned (`none` while it
still waits). Every send on `outch` is taken to be received. -/
def run : List runEvent → List RunOutput × Option GoError
  | [] => ([], none)
  | .ctxDone err :: _ => ([], some err)
  | .recv rs ma :: rest => (runOutput rs ma :: (run rest).1, (run rest).2)

/-! ## stepProgress (ghlogs.go 207-246) -/

/-- The loop `for _, status := range rs.Statuses` that computes `anyNotComplete`. -/
def anyNotComplete : List (String × jobStatus) → Bool → Bool
  | [], acc => acc
  | (_, status) :: rest, acc =>
    if status.Job.Status ≠ "completed" then anyNotComplete rest true else anyNotComplete rest acc

/-- What a call of the closure `retryWithWsUrl` did. -/
structure Retried where
  /-- The error returned. -/
  result : Option GoError
  /-- How many times the URL was requested from the resolver. -/
  resolved : Nat
  /-- The URLs handed to `fn`, in order. -/
  connected : List String
  deriving DecidableEq, Repr

/-- The closure `retryWithWsUrl`, on what the successive resolutions answer and on what the
successive calls of `fn` return for the URL they get. `none`: the loop is still running
after the listed answers. -/
def retryWithWsUrl :
    List (Except GoError String) → List (String → Option GoError) → Option Retried
  | [], _ => none
  | .error err :: _, _ => some ⟨some err, 1, []⟩
  | .ok _ :: _, [] => none
  | .ok wsUrl :: resolutions, fn :: fns =>
    if !isConnReset (fn wsUrl) then some ⟨fn wsUrl, 1, [wsUrl]⟩
    else
      match retryWithWsUrl resolutions fns with
      | none => none
      | some r => some ⟨r.result, r.resolved + 1, wsUrl :: r.connected⟩

/-- The error that `g.Wait()` of errgroup hands back: the first non-nil error, the tasks
taken in the order in which they return. -/
def groupWait : List (Option GoError) → Option GoError
  | [] => none
  | some err :: _ => some err
  | none :: rest => groupWait rest

/-- How a call of `Logs` ends. -/
inductive LogsResult where
  /-- Returned from lines 57-80, before any stream URL is resolved, after `refreshes` calls
  of `populateRunStatus`. -/
  | early (err : Option GoError) (refreshes : Nat)
  /-- Returned from lines 127-132, after the three tasks. -/
  | session (err : Option GoError)
  | panicked
  /-- Still in the loop of lines 67-80 after the listed answers. -/
  | polling
  /-- Blocked in `g.Wait()` (line 127): one of the three tasks has not returned. -/
  | waiting
  deriving DecidableEq, Repr

/-- The value `Logs` hands to its caller, when it returns. -/
def LogsResult.error : LogsResult → Option (Option GoError)
  | .early err _ => some err
  | .session err => some err
  | _ => none

/-- The search `for _, status := range rs.Statuses` of lines 68-73: the name of a job that
is not completed. Go ranges over a map in an unspecified order; list order is taken. -/
def findAnyJob : List (String × jobStatus) → Option String
  | [] => none
  | (_, status) :: rest =>
    if status.Job.Status ≠ "completed" then some status.Job.Name else findAnyJob rest

/-- The lines 127-132 of `Logs`, on what the tasks that have returned handed back, in the
order in which they returned: `g.Wait()` returns once the three tasks of the group have
returned, and `errJobDone` is turned to nil. -/
def logsWait (tasks : List (Option GoError)) : LogsResult :=
  if tasks.length < 3 then .waiting
  else
    match groupWait tasks with
    | none => .session none
    | some err => if err.Cause = GoError.errJobDone then .session none else .session (some err)

/-- The loop `for anyJobName == ""` of `Logs` and what follows it. `tasks anyJobName rs`
lists what the tasks that return hand back, in the order in which they return; a task that
never returns is not listed. -/
def logsPoll (tasks : String → runStatus → List (Option GoError)) :
    List Fetched → runStatus → Nat → LogsResult
  | [], rs, _ =>
    match findAnyJob rs.Statuses with
    | some anyJobName => logsWait (tasks anyJobName rs)
    | none => .polling
  | f :: rest, rs, n =>
    match findAnyJob rs.Statuses with
    | some anyJobName => logsWait (tasks anyJobName rs)
    | none =>
      match populateRunStatus f rs with
      | .error _ e => .early (some e) (n + 1)
      | .panicked => .panicked
      | .ok rs1 => logsPoll tasks rest rs1 (n + 1)

/-- The function `Logs`, on the answers of the successive status refreshes. -/
def Logs (run : Run) (tasks : String → runStatus → List (Option GoError)) :
    List Fetched → LogsResult
  | [] => .polling
  | f :: rest =>
    match populateRunStatus f ⟨run, [], [], none⟩ with
    | .error _ e => .early (some e) 1
    | .panicked => .panicked
    | .ok rs =>
      match rs.run with
      | none => .panicked
      | some r =>
        if r.Status = "completed" then .early none 1
        else logsPoll tasks rest rs 1

end ghlogs

/-! ## signalr.Connect (signalr/signalr.go) -/

namespace signalr

/-- The record `websocketMessage[T]`. -/
structure websocketMessage (T : Type) where
  Type_ : Int
  Target : String
  Arguments : List T

def MessageTypeUndefined : Int := 0
def MessageTypeInvocation : Int := 1
def MessageTypeStreamItem : Int := 2
def MessageTypeCompletion : Int := 3
def MessageTypeStreamInvocation : Int := 4
def MessageTypeCancelInvocation : Int := 5
def MessageTypePing : Int := 6
def MessageTypeClose : Int := 7

/-- The variable `jsonTerminator`. -/
def jsonTerminator : UInt8 := 0x1E

/-- The conversion `[]byte(s)`: the UTF-8 bytes of a string. -/
def bytesOf (s : String) : List UInt8 := s.data.flatMap String.utf8EncodeChar

/-- The function `bytes.Split(s, []byte{sep})`. -/
def bytesSplit (sep : UInt8) : List UInt8 → List (List UInt8)
  | [] => [[]]
  | b :: rest =>
    if b = sep then [] :: bytesSplit sep rest
    else
      match bytesSplit sep rest with
      | [] => [[b]]
      | part :: parts => (b :: part) :: parts

/-- The function `fmt.Sprintf` for a format whose only verb is `%s`, with string operands. -/
def Sprintf : List Char → List String → List Char
  | [], _ => []
  | '%' :: 's' :: rest, a :: args => a.data ++ Sprintf rest args
  | '%' :: 's' :: rest, [] => "%!s(MISSING)".data ++ Sprintf rest []
  | c :: rest, args => c :: Sprintf rest args

/-- The format of the subscribe frame (signalr.go line 53). -/
def subscribeFormat : String :=
  "\x7b\"arguments\":[\"%s\",%s],\"target\":\"%s\",\"type\":1\x7d"

/-- The first frame written (line 48). -/
def handshakeFrame : List UInt8 :=
  bytesOf "\x7b\"protocol\":\"json\",\"version\":1\x7d" ++ [jsonTerminator]

/-- The second frame written (line 53). -/
def subscribeFrame (tenantId realRunId target : String) : List UInt8 :=
  bytesOf (String.mk (Sprintf subscribeFormat.data [tenantId, realRunId, target]))
    ++ [jsonTerminator]

/-- The loop `for _, part := range split` of the read loop, with `json.Unmarshal` into
`websocketMessage[T]` as `decode`: the elements sent on `ch`, and `some err` when the loop
returns from `Connect` (`none`: the next message is read). -/
def handleParts {T : Type} (decode : List UInt8 → Except GoError (websocketMessage T)) :
    List (List UInt8) → List T × Option (Option GoError)
  | [] => ([], none)
  | part :: rest =>
    if part.length = 0 ∨ part = bytesOf "\x7b\x7d" then handleParts decode rest
    else
      match decode part with
      | .error err => ([], some (some (.withStack err)))
      | .ok message =>
        if message.Type_ = MessageTypeInvocation then
          (message.Arguments ++ (handleParts decode rest).1, (handleParts decode rest).2)
        else if message.Type_ = MessageTypeClose then ([], some none)
        else handleParts decode rest

/-- One turn of the read loop on a message read from the connection. -/
def handleMessage {T : Type} (decode : List UInt8 → Except GoError (websocketMessage T))
    (wsMessage : List UInt8) : List T × Option (Option GoError) :=
  handleParts decode (bytesSplit jsonTerminator wsMessage)

/-- The read loop `for` of lines 65-99, on what the successive `conn.ReadMessage()` answer. -/
def readLoop {T : Type} (decode : List UInt8 → Except GoError (websocketMessage T)) :
    List (Except GoError (List UInt8)) → List T × Option (Option GoError)
  | [] => ([], none)
  | .error err :: _ => ([], some (some (.withStack err)))
  | .ok wsMessage :: rest =>
    match (handleMessage decode wsMessage).2 with
    | some r => ((handleMessage decode wsMessage).1, some r)
    | none => ((handleMessage decode wsMessage).1 ++ (readLoop decode rest).1,
        (readLoop decode rest).2)

/-- What one call of `Connect` meets: the answers of the dial, of `url.Parse` (the query
values `tenantId` and `runId`), of the two writes and of the reads. -/
structure Session where
  dial : Option GoError
  parse : Except GoError (String × String)
  write1 : Option GoError
  write2 : Option GoError
  reads : List (Except GoError (List UInt8))

/-- What one call of `Connect` did: the frames written, the elements sent on `ch`, and the
error returned (`none` while it still reads). Every send on `ch` is taken to be received:
the channel is unbuffered, and a send that nobody receives blocks `Connect` for ever. -/
structure Connected (T : Type) where
  written : List (List UInt8)
  delivered : List T
  result : Option (Option GoError)

/-- The function `Connect`. -/
def Connect {T : Type} (decode : List UInt8 → Except GoError (websocketMessage T))
    (target : String) (s : Session) : Connected T :=
  match s.dial with
  | some err => ⟨[], [], some (some (.withStack err))⟩
  | none =>
    match s.parse with
    | .error err => ⟨[], [], some (some (.withStack err))⟩
    | .ok (tenantId, realRunId) =>
      match s.write1 with
      | some err => ⟨[], [], some (some (.withStack err))⟩
      | none =>
        match s.write2 with
        | some err => ⟨[handshakeFrame], [], some (some (.withStack err))⟩
        | none =>
          ⟨[handshakeFrame, subscribeFrame tenantId realRunId target],
            (readLoop decode s.reads).1, (readLoop decode s.reads).2⟩

/-! ### The dispatch of a message in the words of the specification -/

/-- The frames of a message: the parts between delimiters that are neither empty nor `{}`. -/
def frames (wsMessage : List UInt8) : List (List UInt8) :=
  (bytesSplit jsonTerminator wsMessage).filter
    (fun part => !decide (part.length = 0 ∨ part = bytesOf "\x7b\x7d"))

/-- Whether the read loop goes on after a frame: the frame decodes and is not a Close. -/
def goesOn {T : Type} (decode : List UInt8 → Except GoError (websocketMessage T))
    (part : List UInt8) : Bool :=
  match decode part with
  | .ok message => !decide (message.Type_ = MessageTypeClose)
  | .error _ => false

/-- The arguments of the Invocation frames among `parts`, in frame and argument order. -/
def invocationArguments {T : Type} (decode : List UInt8 → Except GoError (websocketMessage T))
    (parts : List (List UInt8)) : List T :=
  parts.flatMap fun part =>
    match decode part with
    | .ok message => if message.Type_ = MessageTypeInvocation then message.Arguments else []
    | .error _ => []

/-- How the turn ends at the first frame after which the loop does not go on: nil at a
Close, the decoding error otherwise; `none` when there is no such frame. -/
def stopAt {T : Type} (decode : List UInt8 → Except GoError (websocketMessage T)) :
    List (List UInt8) → Option (Option GoError)
  | [] => none
  | part :: _ =>
    match decode part with
    | .ok _ => some none
    | .error err => some (some (.withStack err))

/-! ### Sample data -/

/-- What `json.Unmarshal` into `websocketMessage[int]` answers on the three frames of
`sampleMessage` (other inputs are not used). -/
def sampleUnmarshal (part : List UInt8) : Except GoError (websocketMessage Int) :=
  if part = bytesOf "\x7b\"type\":1,\"arguments\":[5]\x7d" then .ok ⟨1, "", [5]⟩
  else if part = bytesOf "\x7b\"type\":7\x7d" then .ok ⟨7, "", []⟩
  else .error (.other "invalid character 'x' looking for beginning of value")

/-- A message of three frames: `x`, an Invocation of argument 5, a Close. -/
def sampleMessage : List UInt8 :=
  bytesOf "x\x1e\x7b\"type\":1,\"arguments\":[5]\x7d\x1e\x7b\"type\":7\x7d\x1e"

/-- A session whose URL carries tenantId "t" and runId "5", and that reads `sampleMessage`. -/
def sampleSession : Session := ⟨none, .ok ("t", "5"), none, none, [.ok sampleMessage]⟩

/-- A message of one frame, an Invocation of argument 5, followed by an empty `{}` part. -/
def invocationMessage : List UInt8 :=
  bytesOf "\x7b\"type\":1,\"arguments\":[5]\x7d\x1e\x7b\x7d\x1e"

/-- A message of three frames: an Invocation of argument 5, a Close, an Invocation. -/
def closeMessage : List UInt8 :=
  bytesOf ("\x7b\"type\":1,\"arguments\":[5]\x7d\x1e\x7b\"type\":7\x7d\x1e" ++
    "\x7b\"type\":1,\"arguments\":[5]\x7d\x1e")

/-- A session that reads `invocationMessage`, then `closeMessage`, then would read more. -/
def closingSession : Session :=
  ⟨none, .ok ("t", "5"), none, none,
    [.ok invocationMessage, .ok closeMessage, .ok invocationMessage]⟩

end signalr

/-! ## Sample data -/

namespace ghlogs

def sampleRun : Run := ⟨"octo", "repo", 7⟩

/-- The state `Logs` starts from. -/
def freshStatus : runStatus := ⟨sampleRun, [], [], none⟩

/-- The job of the scenario: steps 1 "checkout" completed, 2 "build" in progress. -/
def jobA : WorkflowJob :=
  ⟨1, "A", "in_progress", [⟨"checkout", "completed", 1⟩, ⟨"build", "in_progress", 2⟩]⟩

def jobB : WorkflowJob := ⟨2, "B", "completed", []⟩

/-- A job whose first step carries the number 0. -/
def jobZ : WorkflowJob :=
  ⟨3, "Z", "in_progress", [⟨"Set up job", "completed", 0⟩, ⟨"build", "in_progress", 1⟩]⟩

/-- Two jobs, their check-runs under the external ids "a" and "b". -/
def fetchedAB : Fetched :=
  ⟨.ok [jobA, jobB], .ok ⟨"in_progress", 9⟩, .ok [⟨1, "a"⟩, ⟨2, "b"⟩]⟩

/-- Two jobs whose check-runs carry the same external id "x". -/
def fetchedClash : Fetched :=
  ⟨.ok [jobA, jobB], .ok ⟨"in_progress", 9⟩, .ok [⟨1, "x"⟩, ⟨2, "x"⟩]⟩

/-- Only job B, completed. -/
def fetchedB : Fetched := ⟨.ok [jobB], .ok ⟨"in_progress", 9⟩, .ok [⟨2, "b"⟩]⟩

/-- Job A not completed, under a run whose status is "completed". -/
def fetchedRunDone : Fetched := ⟨.ok [jobA], .ok ⟨"completed", 9⟩, .ok [⟨1, "a"⟩]⟩

/-- A state that knows job A under "a", the step record "s2" as step 2. -/
def statusA : runStatus :=
  ⟨sampleRun, [("a", ⟨⟨1, "a"⟩, jobA⟩)], [("s2", 2), ("s9", 9)], some ⟨"in_progress", 9⟩⟩

/-- A state that knows job Z under "z" and no step record. -/
def statusZ : runStatus :=
  ⟨sampleRun, [("z", ⟨⟨3, "z"⟩, jobZ⟩)], [], some ⟨"in_progress", 9⟩⟩

/-- A batch of the job stream `timelineRecordId` for the step record `stepRecordId`. -/
def batch (timelineRecordId stepRecordId : String) : consoleOutputMessage :=
  ⟨0, "t", timelineRecordId, stepRecordId, 1, ["hello"]⟩

end ghlogs


/-! ## getWsUrl (ws_url.go) and getJson, do (ghlogs.go 171-205) -/

namespace ghlogs

/-- Equality of the results `Except` is decidable when that of errors and values is. -/
instance instDecidableEqExcept {ε α : Type} [DecidableEq ε] [DecidableEq α] :
    DecidableEq (Except ε α)
  | .ok a, .ok b => if h : a = b then isTrue (by rw [h]) else isFalse (by simpa using h)
  | .error a, .error b => if h : a = b then isTrue (by rw [h]) else isFalse (by simpa using h)
  | .ok _, .error _ => isFalse (by simp)
  | .error _, .ok _ => isFalse (by simp)

/-- The record `http.Response`, as far as the program reads it; `Body` is what reading the
body to its end gives. -/
structure Response where
  StatusCode : Int
  Status : String
  Body : Except GoError String
  deriving DecidableEq

/-- The answer of `ghl.client.Do(req)` to a GET of a URL, as a function of the number of
requests made before and of the URL. -/
abbrev Client := Nat → String → Except GoError Response

/-- The function `getScheme` of net/url on the characters of a URL: the scheme in front of
the first colon, `none` when the URL has no scheme. `first` tells the first character. -/
def getScheme (first : Bool) : List Char → Option (List Char)
  | [] => none
  | c :: rest =>
    if c.isAlpha then (getScheme false rest).map (fun scheme => c :: scheme)
    else if c.isDigit ∨ c = '+' ∨ c = '-' ∨ c = '.' then
      if first then none else (getScheme false rest).map (fun scheme => c :: scheme)
    else if c = ':' then (if first then none else some [])
    else none

/-- The field `Scheme` of a parsed URL: the scheme in lower case, "" when there is none. -/
def urlScheme (url : String) : String :=
  match getScheme true url.data with
  | some scheme => String.mk (scheme.map Char.toLower)
  | none => ""

/-- The client of net/http (`http.DefaultClient` in cmd.go) in front of the endpoints:
`Transport.RoundTrip` refuses a request whose URL scheme is neither http nor https before any
endpoint is asked. -/
def netHttp (endpoints : Nat → String → Except GoError Response) : Client :=
  fun n url =>
    if urlScheme url = "http" ∨ urlScheme url = "https" then endpoints n url
    else
      .error (.wrapped ("Get \"" ++ url ++ "\"")
        (.other ("unsupported protocol scheme \"" ++ urlScheme url ++ "\"")))

/-- The call `http.NewRequestWithContext(ctx, "GET", url, nil)` with its error dropped, as
`getWsUrl` and `getJson` make it: the request, nil (`none`) when `url.Parse` rejects the
URL. `parses` tells which URLs `url.Parse` accepts. -/
def newRequest (parses : String → Bool) (url : String) : Option String :=
  if parses url then some url else none

/-- The method `do`: the answer of the client, its error under `errors.WithStack`. On a nil
request the test `req.URL.Host == "github.com"` panics (`none`). -/
def «do» (client : Client) (n : Nat) : Option String → Option (Except GoError Response)
  | none => none
  | some url =>
    match client n url with
    | .ok response => some (.ok response)
    | .error err => some (.error (.withStack err))

/-- The function `getJson[T]`: the value decoded and the error, `none` when `do` panics.
`unmarshal` is `json.Unmarshal` into a zero `T`; it yields what it has decoded also when it
fails. -/
def getJson {T : Type} (zero : T) (unmarshal : String → T × Option GoError)
    (parses : String → Bool) (client : Client) (n : Nat) (url : String) :
    Option (T × Option GoError) :=
  match «do» client n (newRequest parses url) with
  | none => none
  | some (.error err) => some (zero, some (.withStack err))
  | some (.ok response) =>
    if response.StatusCode > 299 then
      some (zero, some (.other ("unexpected status code: " ++ response.Status)))
    else
      match response.Body with
      | .error err => some (zero, some (.withStack err))
      | .ok body => some ((unmarshal body).1, WithStack (unmarshal body).2)

/-- The three decoders `getWsUrl` relies on: the attributes `data-concluded` and
`data-streaming-url` of the element `streaming-graph-job` of a fragment ("" when absent),
the field `data.authenticated_url` of a `liveLogsResponse` and the field
`logStreamWebSocketUrl` of a `liveLogsSecondResponse`. -/
structure Decoders where
  attrs : String → String × String
  liveLogs : String → String × Option GoError
  liveLogsSecond : String → String × Option GoError

/-- The URL of the job fragment (ws_url.go line 30). -/
def jobFragmentUrl (run : Run) (jobName : String) : String :=
  "https://github.com/" ++ run.Owner ++ "/" ++ run.Repo ++ "/actions/runs/" ++
    toString run.RunId ++ "/graph/job/" ++ jobName

/-- How a call of `getWsUrl` ends: a URL, an error, or a nil-pointer panic. -/
inductive Resolution where
  | ok (wsUrl : String)
  | error (err : GoError)
  | panicked
  deriving DecidableEq, Repr

/-- What a call of `getWsUrl` did: how it ended and the URLs requested from the client, in
order. -/
structure Resolved where
  result : Resolution
  requested : List String

/-- The second loop of `getWsUrl` (lines 55-71), with `fuel` attempts left, after `n`
requests. -/
def phaseB (d : Decoders) (parses : String → Bool) (client : Client) (refreshUrl : String) :
    Nat → Nat → Resolved
  | 0, _ => ⟨.error (.other "didn't get url after multiple attempts"), []⟩
  | fuel + 1, n =>
    match getJson "" d.liveLogs parses client n refreshUrl with
    | none => ⟨.panicked, []⟩
    | some ret1 =>
      if ret1.1 = "" then
        ⟨(phaseB d parses client refreshUrl fuel (n + 1)).result,
          refreshUrl :: (phaseB d parses client refreshUrl fuel (n + 1)).requested⟩
      else
        match getJson "" d.liveLogsSecond parses client (n + 1) ret1.1 with
        | none => ⟨.panicked, [refreshUrl]⟩
        | some ret2 =>
          if ret2.1 ≠ "" then ⟨.ok ret2.1, [refreshUrl, ret1.1]⟩
          else
            ⟨(phaseB d parses client refreshUrl fuel (n + 2)).result,
              refreshUrl :: ret1.1 ::
                (phaseB d parses client refreshUrl fuel (n + 2)).requested⟩

/-- The first loop of `getWsUrl` (lines 27-53) followed by the second, with `fuel` attempts
of the first loop left, after `n` requests. When the first loop runs out, `refreshUrl` is
still "" and the second loop starts with it. -/
def phaseA (d : Decoders) (parses : String → Bool) (client : Client) (jobUrl : String) :
    Nat → Nat → Resolved
  | 0, n => phaseB d parses client "" 10 n
  | fuel + 1, n =>
    match «do» client n (newRequest parses jobUrl) with
    | none => ⟨.panicked, []⟩
    | some (.error err) => ⟨.error err, [jobUrl]⟩
    | some (.ok resp1) =>
      match resp1.Body with
      | .error err => ⟨.error err, [jobUrl]⟩
      | .ok html =>
        if (d.attrs html).1 = "true" then ⟨.error (.withStack .errJobDone), [jobUrl]⟩
        else if (d.attrs html).2 ≠ "" then
          ⟨(phaseB d parses client ("https://github.com" ++ (d.attrs html).2) 10
              (n + 1)).result,
            jobUrl :: (phaseB d parses client ("https://github.com" ++ (d.attrs html).2) 10
              (n + 1)).requested⟩
        else
          ⟨(phaseA d parses client jobUrl fuel (n + 1)).result,
            jobUrl :: (phaseA d parses client jobUrl fuel (n + 1)).requested⟩

/-- The method `getWsUrl`. -/
def getWsUrl (d : Decoders) (parses : String → Bool) (client : Client) (run : Run)
    (jobName : String) : Resolved :=
  phaseA d parses client (jobFragmentUrl run jobName) 10 0

/-- What the successive `sf.Do` hand to `retryWithWsUrl`, from how the successive calls of
`getWsUrl` end; after a panic nothing is answered any more. -/
def resolutions : List Resolution → List (Except GoError String)
  | [] => []
  | .ok wsUrl :: rest => .ok wsUrl :: resolutions rest
  | .error err :: rest => .error err :: resolutions rest
  | .panicked :: _ => []

/-- The entry that the second loop of the merge leaves at the key `k`, from the entry `e`
found there before: that of the last job whose check-run has the external id `k`. -/
def mergedEntry (byId : List (Int × CheckRun)) (k : String) :
    List WorkflowJob → Option jobStatus → Option jobStatus
  | [], e => e
  | job :: rest, e =>
    match GoMap.get job.ID byId with
    | none => mergedEntry byId k rest e
    | some cr =>
      if cr.ExternalID = k then mergedEntry byId k rest (some ⟨cr, job⟩)
      else mergedEntry byId k rest e

/-! ### Sample data -/

/-- Decoders for the sample bodies: a body is the value of its one attribute or field. -/
def sampleDecoders : Decoders :=
  ⟨fun html => if html = "concluded" then ("true", "") else ("", ""),
   fun body => (body, none), fun body => (body, none)⟩

/-- What `url.Parse` answers on the URLs of the samples: it accepts the empty URL, the job
fragment URLs of `sampleRun` for the job names "A" and "B" and the URL "wss://x", and
rejects a URL with a `%` that starts no escape, as the job name "A%zz" gives. -/
def sampleParses (url : String) : Bool :=
  url.data.all fun c => decide (c ≠ '%')

/-- Endpoints that answer every request with a body "wss://x": as a fragment it is neither
concluded nor carries a handle; as a JSON document its field is "wss://x". -/
def idleEndpoints : Nat → String → Except GoError Response :=
  fun _ _ => .ok ⟨200, "200 OK", .ok "wss://x"⟩

end ghlogs
/-! # Theorems -/

namespace GoMap

theorem get_set_self {κ ν : Type} [DecidableEq κ] (k : κ) (v : ν) (m : List (κ × ν)) :
    get k (set k v m) = some v := by
  induction m with
  | nil => simp [set, get]
  | cons p m ih =>
    obtain ⟨k', v'⟩ := p
    by_cases h : k' = k
    · simp [set, get, h]
    · simp [set, get, h, ih]

theorem get_set_ne {κ ν : Type} [DecidableEq κ] (k k' : κ) (v : ν) (m : List (κ × ν))
    (h : k ≠ k') : get k' (set k v m) = get k' m := by
  induction m with
  | nil => simp [set, get, h]
  | cons p m ih =>
    obtain ⟨k1, v1⟩ := p
    by_cases h1 : k1 = k
    · subst h1
      simp [set, get, h]
    · by_cases h2 : k1 = k'
      · subst h2
        simp [set, get, h1]
      · simp [set, get, h1, h2, ih]

end GoMap

namespace ghlogs

theorem checkRunsById_get_of_not_mem (k : Int) (C : List CheckRun) :
    ∀ m : List (Int × CheckRun), (∀ c ∈ C, c.ID ≠ k) →
      GoMap.get k (checkRunsById C m) = GoMap.get k m := by
  induction C with
  | nil => intro m _; rfl
  | cons c C ih =>
    intro m h
    have hc : c.ID ≠ k := h c (List.mem_cons_self _ _)
    rw [checkRunsById, ih _ (fun c' hc' => h c' (List.mem_cons_of_mem _ hc')),
      GoMap.get_set_ne _ _ _ _ hc]

theorem checkRunsById_get_mem (C : List CheckRun) :
    ∀ m : List (Int × CheckRun), C.Pairwise (fun c c' => c.ID ≠ c'.ID) →
      ∀ c ∈ C, GoMap.get c.ID (checkRunsById C m) = some c := by
  induction C with
  | nil => intro m _ c hc; cases hc
  | cons x C ih =>
    intro m hp c hc
    rw [List.pairwise_cons] at hp
    rw [checkRunsById]
    rcases List.mem_cons.mp hc with rfl | hc
    · rw [checkRunsById_get_of_not_mem _ _ _ (fun c' hc' => (hp.1 c' hc').symm),
        GoMap.get_set_self]
    · exact ih _ hp.2 c hc

theorem checkRunsById_get_some (k : Int) (c : CheckRun) (C : List CheckRun) :
    ∀ m : List (Int × CheckRun), GoMap.get k (checkRunsById C m) = some c →
      (c ∈ C ∧ c.ID = k) ∨ GoMap.get k m = some c := by
  induction C with
  | nil => intro m h; exact Or.inr h
  | cons x C ih =>
    intro m h
    rw [checkRunsById] at h
    rcases ih _ h with ⟨hm, hk⟩ | h1
    · exact Or.inl ⟨List.mem_cons_of_mem _ hm, hk⟩
    · by_cases hx : x.ID = k
      · subst hx
        rw [GoMap.get_set_self] at h1
        cases h1
        exact Or.inl ⟨List.mem_cons_self _ _, rfl⟩
      · rw [GoMap.get_set_ne _ _ _ _ hx] at h1
        exact Or.inr h1

theorem mergeJobs_some (byId : List (Int × CheckRun)) (J : List WorkflowJob) :
    ∀ st : List (String × jobStatus), (∀ j ∈ J, ∃ c, GoMap.get j.ID byId = some c) →
      ∃ st', mergeJobs byId J st = some st' := by
  induction J with
  | nil => intro st _; exact ⟨st, rfl⟩
  | cons j J ih =>
    intro st h
    obtain ⟨c, hc⟩ := h j (List.mem_cons_self _ _)
    simp only [mergeJobs, hc]
    exact ih _ (fun j' hj' => h j' (List.mem_cons_of_mem _ hj'))

theorem mergeJobs_get_other (byId : List (Int × CheckRun)) (k : String)
    (J : List WorkflowJob) :
    ∀ st st' : List (String × jobStatus), mergeJobs byId J st = some st' →
      (∀ j ∈ J, ∀ c, GoMap.get j.ID byId = some c → c.ExternalID ≠ k) →
      GoMap.get k st' = GoMap.get k st := by
  induction J with
  | nil =>
    intro st st' h _
    simp only [mergeJobs, Option.some.injEq] at h
    rw [h]
  | cons j J ih =>
    intro st st' h hne
    cases hc : GoMap.get j.ID byId with
    | none => simp [mergeJobs, hc] at h
    | some c =>
      simp only [mergeJobs, hc] at h
      rw [ih _ _ h (fun j' hj' => hne j' (List.mem_cons_of_mem _ hj')),
        GoMap.get_set_ne _ _ _ _ (hne j (List.mem_cons_self _ _) c hc)]

theorem mergeJobs_get_mem (byId : List (Int × CheckRun)) (J : List WorkflowJob) :
    ∀ st st' : List (String × jobStatus), mergeJobs byId J st = some st' →
      J.Pairwise (fun j j' => ∀ c c', GoMap.get j.ID byId = some c →
        GoMap.get j'.ID byId = some c' → c.ExternalID ≠ c'.ExternalID) →
      ∀ j ∈ J, ∀ c, GoMap.get j.ID byId = some c →
        GoMap.get c.ExternalID st' = some ⟨c, j⟩ := by
  induction J with
  | nil => intro st st' _ _ j hj; cases hj
  | cons x J ih =>
    intro st st' h hp j hj c hc
    rw [List.pairwise_cons] at hp
    cases hx : GoMap.get x.ID byId with
    | none => simp [mergeJobs, hx] at h
    | some cx =>
      simp only [mergeJobs, hx] at h
      rcases List.mem_cons.mp hj with rfl | hj
      · rw [hx] at hc
        cases hc
        rw [mergeJobs_get_other _ _ _ _ _ h
          (fun j' hj' c' hc' => (hp.1 j' hj' _ _ hx hc').symm), GoMap.get_set_self]
      · exact ih _ _ h hp.2 j hj c hc

/-- C1 (as amended): when the three fetches succeed, every job's id is the id of a check-run
of C, the check-runs of C have pairwise distinct ids and the check-runs of the jobs of J
have pairwise distinct external ids, `populateRunStatus` returns nil and the job map holds,
for every job j of J, the entry {job: j, checkRun: c} at the external id of the check-run c
whose id is j.ID. -/
theorem populateRunStatus_merge (f : Fetched) (rs : runStatus) (J : List WorkflowJob)
    (C : List CheckRun) (r : WorkflowRun)
    (hjobs : f.jobs = .ok J) (hrun : f.run = .ok r) (hsuite : f.suite = .ok C)
    (hcov : ∀ j ∈ J, ∃ c ∈ C, c.ID = j.ID)
    (hC : C.Pairwise (fun c c' => c.ID ≠ c'.ID))
    (hJ : J.Pairwise (fun j j' => ∀ c ∈ C, ∀ c' ∈ C, c.ID = j.ID → c'.ID = j'.ID →
      c.ExternalID ≠ c'.ExternalID)) :
    ∃ rs', populateRunStatus f rs = .ok rs' ∧
      ∀ j ∈ J, ∀ c ∈ C, c.ID = j.ID →
        GoMap.get c.ExternalID rs'.Statuses = some ⟨c, j⟩ := by
  have hget : ∀ j ∈ J, ∃ c, GoMap.get j.ID (checkRunsById C []) = some c := by
    intro j hj
    obtain ⟨c, hc, hid⟩ := hcov j hj
    exact ⟨c, hid ▸ checkRunsById_get_mem C [] hC c hc⟩
  obtain ⟨st', hst⟩ := mergeJobs_some (checkRunsById C []) J rs.Statuses hget
  refine ⟨{ rs with run := some r, Statuses := st' }, ?_, ?_⟩
  · simp only [populateRunStatus, hjobs, hrun, hsuite, hst]
  · intro j hj c hc hid
    have hin : ∀ k c', GoMap.get k (checkRunsById C []) = some c' → c' ∈ C ∧ c'.ID = k := by
      intro k c' h
      rcases checkRunsById_get_some k c' C [] h with h1 | h1
      · exact h1
      · simp [GoMap.get] at h1
    refine mergeJobs_get_mem (checkRunsById C []) J rs.Statuses st' hst ?_ j hj c
      (hid ▸ checkRunsById_get_mem C [] hC c hc)
    refine hJ.imp ?_
    intro a b hab c1 c2 h1 h2
    exact hab c1 (hin _ _ h1).1 c2 (hin _ _ h2).1 (hin _ _ h1).2 (hin _ _ h2).2

end ghlogs

namespace ghlogs

theorem stepLoop_certain (number : Int) (steps : List TaskStep) :
    ∀ ip : Option TaskStep, (∃ s ∈ steps, s.Number = number) →
      ∃ s, steps.find? (fun s => decide (s.Number = number)) = some s ∧
        stepLoop number steps ip = (some s, true) := by
  induction steps with
  | nil => intro ip h; obtain ⟨s, hs, _⟩ := h; cases hs
  | cons x steps ih =>
    intro ip h
    by_cases hx : x.Number = number
    · exact ⟨x, by simp [List.find?, hx], by simp [stepLoop, hx]⟩
    · obtain ⟨s, hs, hn⟩ := h
      have hrest : ∃ s ∈ steps, s.Number = number := by
        rcases List.mem_cons.mp hs with rfl | hs
        · exact absurd hn hx
        · exact ⟨s, hs, hn⟩
      simp only [stepLoop, hx, if_false, List.find?, decide_False]
      split
      · exact ih _ hrest
      · exact ih _ hrest

theorem stepLoop_guess (number : Int) (steps : List TaskStep) :
    ∀ ip : Option TaskStep, (∀ s ∈ steps, s.Number ≠ number) →
      (stepLoop number steps ip).2 = false ∧
      ((stepLoop number steps ip).1 = ip ∨
        ∃ r ∈ steps, (stepLoop number steps ip).1 = some r ∧ r.Status = "in_progress" ∧
          (ip.elim 0 TaskStep.Number) < r.Number) ∧
      (∀ s ∈ steps, s.Status = "in_progress" →
        s.Number ≤ ((stepLoop number steps ip).1).elim 0 TaskStep.Number) ∧
      ip.elim 0 TaskStep.Number ≤ ((stepLoop number steps ip).1).elim 0 TaskStep.Number := by
  induction steps with
  | nil => intro ip _; simp [stepLoop]
  | cons x steps ih =>
    intro ip h
    have hx : x.Number ≠ number := h x (List.mem_cons_self _ _)
    have hrest : ∀ s ∈ steps, s.Number ≠ number :=
      fun s hs => h s (List.mem_cons_of_mem _ hs)
    have hb : (match ip with | some s => s.Number | none => (0 : Int)) =
        ip.elim 0 TaskStep.Number := by cases ip <;> rfl
    simp only [stepLoop, hx, if_false, hb]
    by_cases hc : x.Number > ip.elim 0 TaskStep.Number ∧ x.Status = "in_progress"
    · simp only [hc, and_self, if_true]
      obtain ⟨h1, h2, h3, h4⟩ := ih (some x) hrest
      simp only [Option.elim] at h2 h4
      refine ⟨h1, Or.inr ?_, ?_, ?_⟩
      · rcases h2 with h2 | ⟨r, hr, hres, hst, hlt⟩
        · exact ⟨x, List.mem_cons_self _ _, h2, hc.2, hc.1⟩
        · exact ⟨r, List.mem_cons_of_mem _ hr, hres, hst, lt_trans hc.1 hlt⟩
      · intro s hs hst
        rcases List.mem_cons.mp hs with rfl | hs
        · exact h4
        · exact h3 s hs hst
      · exact le_trans (le_of_lt hc.1) h4
    · simp only [hc, if_false]
      obtain ⟨h1, h2, h3, h4⟩ := ih ip hrest
      refine ⟨h1, ?_, ?_, h4⟩
      · rcases h2 with h2 | ⟨r, hr, hres, hst, hlt⟩
        · exact Or.inl h2
        · exact Or.inr ⟨r, List.mem_cons_of_mem _ hr, hres, hst, hlt⟩
      · intro s hs hst
        rcases List.mem_cons.mp hs with rfl | hs
        · have : ¬ (s.Number > ip.elim 0 TaskStep.Number) := fun hgt => hc ⟨hgt, hst⟩
          exact le_trans (not_lt.mp this) h4
        · exact h3 s hs hst

theorem run_recv (rs : runStatus) (ma : consoleOutputMessage) (rest : List runEvent) :
    run (.recv rs ma :: rest) = (runOutput rs ma :: (run rest).1, (run rest).2) := rfl

theorem runOutput_guess (rs : runStatus) (ma : consoleOutputMessage) (js : jobStatus)
    (hjob : GoMap.get ma.TimelineRecordId rs.Statuses = some js)
    (hno : ∀ s ∈ js.Job.Steps,
      s.Number ≠ (GoMap.get ma.StepRecordId rs.StepNumbers).getD 0)
    (hpos : ∀ s ∈ js.Job.Steps, 0 < s.Number) :
    (runOutput rs ma).AssumedStepName = true ∧
    (runOutput rs ma).JobName = js.Job.Name ∧
    (runOutput rs ma).Lines = ma.Lines ∧
    ((∃ s ∈ js.Job.Steps, s.Status = "in_progress") →
      ∃ s ∈ js.Job.Steps, s.Status = "in_progress" ∧
        (∀ s' ∈ js.Job.Steps, s'.Status = "in_progress" → s'.Number ≤ s.Number) ∧
        (runOutput rs ma).StepName = s.Name ∧ (runOutput rs ma).StepNumber = s.Number) ∧
    ((∀ s ∈ js.Job.Steps, s.Status ≠ "in_progress") →
      (runOutput rs ma).StepName = "?" ∧ (runOutput rs ma).StepNumber = 0) := by
  obtain ⟨h1, h2, h3, _⟩ := stepLoop_guess _ js.Job.Steps none hno
  simp only [runOutput, runStatus.step, hjob, h1, Bool.not_false, true_and]
  cases hres : (stepLoop ((GoMap.get ma.StepRecordId rs.StepNumbers).getD 0)
      js.Job.Steps none).1 with
  | none =>
    rw [hres] at h3
    simp only [Option.elim] at h3
    refine ⟨?_, fun _ => ⟨rfl, rfl⟩⟩
    rintro ⟨s, hs, hst⟩
    exact absurd (h3 s hs hst) (not_le.mpr (hpos s hs))
  | some r =>
    rw [hres] at h2 h3
    simp only [Option.elim] at h2 h3
    rcases h2 with h2 | ⟨r', hr', hres', hst, _⟩
    · cases h2
    · cases hres'
      have hne : r.Number ≠ 0 := ne_of_gt (hpos r hr')
      refine ⟨fun _ => ⟨r, hr', hst, h3, ?_, ?_⟩, fun hnone => absurd hst (hnone r hr')⟩
      · rfl
      · simp [hne]

theorem runOutput_exact (rs : runStatus) (ma : consoleOutputMessage) (js : jobStatus)
    (n : Int)
    (hjob : GoMap.get ma.TimelineRecordId rs.Statuses = some js)
    (hnum : GoMap.get ma.StepRecordId rs.StepNumbers = some n)
    (hstep : ∃ s ∈ js.Job.Steps, s.Number = n) :
    (runOutput rs ma).AssumedStepName = false ∧
    (runOutput rs ma).JobName = js.Job.Name ∧
    (runOutput rs ma).StepNumber = n ∧
    (runOutput rs ma).Lines = ma.Lines ∧
    ∃ s ∈ js.Job.Steps, s.Number = n ∧
      js.Job.Steps.find? (fun s => decide (s.Number = n)) = some s ∧
      (runOutput rs ma).StepName = s.Name := by
  obtain ⟨s, hfind, hloop⟩ := stepLoop_certain n js.Job.Steps none hstep
  have hmem : s ∈ js.Job.Steps := List.mem_of_find?_eq_some hfind
  have hn : s.Number = n := by simpa using List.find?_some hfind
  simp only [runOutput, runStatus.step, hjob, hnum, Option.getD_some, hloop, Bool.not_true,
    true_and]
  refine ⟨?_, s, hmem, hn, hfind, rfl⟩
  rw [← hn]
  split <;> simp_all

theorem runOutput_fallback (rs : runStatus) (ma : consoleOutputMessage) (js : jobStatus)
    (n : Int)
    (hjob : GoMap.get ma.TimelineRecordId rs.Statuses = some js)
    (hpos : ∀ s ∈ js.Job.Steps, 0 < s.Number)
    (hnum : GoMap.get ma.StepRecordId rs.StepNumbers = some n)
    (hno : ∀ s ∈ js.Job.Steps, s.Number ≠ n) :
    (runOutput rs ma).AssumedStepName = true ∧
    (runOutput rs ma).JobName = js.Job.Name ∧
    (runOutput rs ma).Lines = ma.Lines ∧
    ((∃ s ∈ js.Job.Steps, s.Status = "in_progress") →
      ∃ s ∈ js.Job.Steps, s.Status = "in_progress" ∧
        (∀ s' ∈ js.Job.Steps, s'.Status = "in_progress" → s'.Number ≤ s.Number) ∧
        (runOutput rs ma).StepName = s.Name ∧ (runOutput rs ma).StepNumber = s.Number) ∧
    ((∀ s ∈ js.Job.Steps, s.Status ≠ "in_progress") →
      (runOutput rs ma).StepName = "?" ∧ (runOutput rs ma).StepNumber = 0) :=
  runOutput_guess rs ma js hjob (by rw [hnum]; exact hno) hpos

theorem runOutput_unmapped (rs : runStatus) (ma : consoleOutputMessage) (js : jobStatus)
    (hjob : GoMap.get ma.TimelineRecordId rs.Statuses = some js)
    (hpos : ∀ s ∈ js.Job.Steps, 0 < s.Number)
    (hnum : GoMap.get ma.StepRecordId rs.StepNumbers = none) :
    (runOutput rs ma).AssumedStepName = true ∧
    (runOutput rs ma).JobName = js.Job.Name ∧
    (runOutput rs ma).Lines = ma.Lines ∧
    ((∃ s ∈ js.Job.Steps, s.Status = "in_progress") →
      ∃ s ∈ js.Job.Steps, s.Status = "in_progress" ∧
        (∀ s' ∈ js.Job.Steps, s'.Status = "in_progress" → s'.Number ≤ s.Number) ∧
        (runOutput rs ma).StepName = s.Name ∧ (runOutput rs ma).StepNumber = s.Number) ∧
    ((∀ s ∈ js.Job.Steps, s.Status ≠ "in_progress") →
      (runOutput rs ma).StepName = "?" ∧ (runOutput rs ma).StepNumber = 0) :=
  runOutput_guess rs ma js hjob
    (by rw [hnum]; exact fun s hs => ne_of_gt (hpos s hs)) hpos

/-- C2: a batch of a known job whose step record is mapped to the number n of a step of that
job makes `run` emit one event, an exact match: AssumedStepName is false, JobName is the
job's name, StepNumber is n, Lines are the batch's lines, and StepName is the name of the
step numbered n (the first one in the step list). -/
theorem run_exact (rs : runStatus) (ma : consoleOutputMessage) (js : jobStatus) (n : Int)
    (rest : List runEvent)
    (hjob : GoMap.get ma.TimelineRecordId rs.Statuses = some js)
    (hnum : GoMap.get ma.StepRecordId rs.StepNumbers = some n)
    (hstep : ∃ s ∈ js.Job.Steps, s.Number = n) :
    ∃ ev, (run (.recv rs ma :: rest)).1 = ev :: (run rest).1 ∧
      ev.Run = rs.Run ∧
      ev.AssumedStepName = false ∧
      ev.JobName = js.Job.Name ∧
      ev.StepNumber = n ∧
      ev.Lines = ma.Lines ∧
      ∃ s ∈ js.Job.Steps, s.Number = n ∧
        js.Job.Steps.find? (fun s => decide (s.Number = n)) = some s ∧
        ev.StepName = s.Name :=
  ⟨runOutput rs ma, rfl, rfl, runOutput_exact rs ma js n hjob hnum hstep⟩

/-- C3: for a known job whose steps all have positive numbers and a batch whose step record
is mapped to a number that is the number of no step of the job, `run` emits one event, with
AssumedStepName true and the job's name; when a step is in progress, StepName and StepNumber
are those of an in-progress step whose number is at least that of every in-progress step;
when none is, StepName is "?" and StepNumber is 0. -/
theorem run_fallback (rs : runStatus) (ma : consoleOutputMessage) (js : jobStatus) (n : Int)
    (rest : List runEvent)
    (hjob : GoMap.get ma.TimelineRecordId rs.Statuses = some js)
    (hpos : ∀ s ∈ js.Job.Steps, 0 < s.Number)
    (hnum : GoMap.get ma.StepRecordId rs.StepNumbers = some n)
    (hno : ∀ s ∈ js.Job.Steps, s.Number ≠ n) :
    ∃ ev, (run (.recv rs ma :: rest)).1 = ev :: (run rest).1 ∧
      ev.Run = rs.Run ∧
      ev.AssumedStepName = true ∧
      ev.JobName = js.Job.Name ∧
      ev.Lines = ma.Lines ∧
      ((∃ s ∈ js.Job.Steps, s.Status = "in_progress") →
        ∃ s ∈ js.Job.Steps, s.Status = "in_progress" ∧
          (∀ s' ∈ js.Job.Steps, s'.Status = "in_progress" → s'.Number ≤ s.Number) ∧
          ev.StepName = s.Name ∧ ev.StepNumber = s.Number) ∧
      ((∀ s ∈ js.Job.Steps, s.Status ≠ "in_progress") →
        ev.StepName = "?" ∧ ev.StepNumber = 0) :=
  ⟨runOutput rs ma, rfl, rfl, runOutput_fallback rs ma js n hjob hpos hnum hno⟩

/-- C4 (as amended): for a known job whose steps all have positive numbers and a batch whose
step record has no entry in the stepNumber map, `run` emits one event, with AssumedStepName
true (it is not an exact match), that names the greatest-numbered in-progress step of the
job; when no step is in progress, StepName is "?" and StepNumber is 0. -/
theorem run_unmapped (rs : runStatus) (ma : consoleOutputMessage) (js : jobStatus)
    (rest : List runEvent)
    (hjob : GoMap.get ma.TimelineRecordId rs.Statuses = some js)
    (hpos : ∀ s ∈ js.Job.Steps, 0 < s.Number)
    (hnum : GoMap.get ma.StepRecordId rs.StepNumbers = none) :
    ∃ ev, (run (.recv rs ma :: rest)).1 = ev :: (run rest).1 ∧
      ev.Run = rs.Run ∧
      ev.AssumedStepName = true ∧
      ev.JobName = js.Job.Name ∧
      ev.Lines = ma.Lines ∧
      ((∃ s ∈ js.Job.Steps, s.Status = "in_progress") →
        ∃ s ∈ js.Job.Steps, s.Status = "in_progress" ∧
          (∀ s' ∈ js.Job.Steps, s'.Status = "in_progress" → s'.Number ≤ s.Number) ∧
          ev.StepName = s.Name ∧ ev.StepNumber = s.Number) ∧
      ((∀ s ∈ js.Job.Steps, s.Status ≠ "in_progress") →
        ev.StepName = "?" ∧ ev.StepNumber = 0) :=
  ⟨runOutput rs ma, rfl, rfl, runOutput_unmapped rs ma js hjob hpos hnum⟩

/-- C5: a batch whose timelineRecordId is not a key of the job map, whatever its
stepRecordId, is emitted by `run` as exactly {Run: the session's run, JobName "?", StepName
"?", StepNumber 0, AssumedStepName true, Lines: the batch's lines}. -/
theorem run_unknown_job (rs : runStatus) (ma : consoleOutputMessage) (rest : List runEvent)
    (hjob : GoMap.get ma.TimelineRecordId rs.Statuses = none) :
    (run (.recv rs ma :: rest)).1 =
      { Run := rs.Run, JobName := "?", StepName := "?", StepNumber := 0,
        AssumedStepName := true, Lines := ma.Lines } :: (run rest).1 := by
  simp [run, runOutput, runStatus.step, hjob]

end ghlogs

namespace ghlogs

/-- C1 (as stated) fails when two jobs have check-runs with one external id: jobs A (id 1)
and B (id 2) with check-runs 1 and 2, both under "x", leave the single entry {B, check-run
2} at "x", not {A, check-run 1}. -/
theorem populateRunStatus_clash :
    (∀ j ∈ [jobA, jobB], ∃ c ∈ [(⟨1, "x"⟩ : CheckRun), ⟨2, "x"⟩], c.ID = j.ID) ∧
    populateRunStatus fetchedClash freshStatus =
      .ok ⟨sampleRun, [("x", ⟨⟨2, "x"⟩, jobB⟩)], [], some ⟨"in_progress", 9⟩⟩ ∧
    ¬ (∀ j ∈ [jobA, jobB], ∀ c ∈ [(⟨1, "x"⟩ : CheckRun), ⟨2, "x"⟩], c.ID = j.ID →
      GoMap.get c.ExternalID [("x", (⟨⟨2, "x"⟩, jobB⟩ : jobStatus))] = some ⟨c, j⟩) := by
  refine ⟨by decide, by decide, by decide⟩

/-- C1, at jobs A and B with check-runs under "a" and "b". -/
theorem populateRunStatus_merge_witness :
    ∃ rs', populateRunStatus fetchedAB freshStatus = .ok rs' ∧
      ∀ j ∈ [jobA, jobB], ∀ c ∈ [(⟨1, "a"⟩ : CheckRun), ⟨2, "b"⟩], c.ID = j.ID →
        GoMap.get c.ExternalID rs'.Statuses = some ⟨c, j⟩ :=
  populateRunStatus_merge fetchedAB freshStatus [jobA, jobB] [⟨1, "a"⟩, ⟨2, "b"⟩]
    ⟨"in_progress", 9⟩ rfl rfl rfl (by decide) (by decide) (by decide)

/-- C2, at the scenario: the step record mapped to 2 gives "build", not assumed. -/
theorem run_exact_witness :
    (run [.recv statusA (batch "a" "s2")]).1 =
      [⟨sampleRun, "A", "build", 2, false, ["hello"]⟩] ∧
    ∃ ev, (run [.recv statusA (batch "a" "s2")]).1 = ev :: (run []).1 ∧
      ev.AssumedStepName = false ∧ ev.JobName = "A" ∧ ev.StepNumber = 2 := by
  refine ⟨by decide, ?_⟩
  obtain ⟨ev, h1, _, h2, h3, h4, _⟩ :=
    run_exact statusA (batch "a" "s2") ⟨⟨1, "a"⟩, jobA⟩ 2 [] rfl rfl (by decide)
  exact ⟨ev, h1, h2, h3, h4⟩

/-- C3, at the scenario with a step record mapped to 9: "build", assumed. -/
theorem run_fallback_witness :
    (run [.recv statusA (batch "a" "s9")]).1 =
      [⟨sampleRun, "A", "build", 2, true, ["hello"]⟩] ∧
    ∃ ev, (run [.recv statusA (batch "a" "s9")]).1 = ev :: (run []).1 ∧
      ev.AssumedStepName = true ∧ ev.JobName = "A" := by
  refine ⟨by decide, ?_⟩
  obtain ⟨ev, h1, _, h2, h3, _⟩ :=
    run_fallback statusA (batch "a" "s9") ⟨⟨1, "a"⟩, jobA⟩ 9 [] rfl (by decide) rfl
      (by decide)
  exact ⟨ev, h1, h2, h3⟩

/-- C4 (as stated) fails for a job with a step numbered 0: an unmapped step record reads as
number 0, so `run` emits the batch as an exact match of that step. -/
theorem runOutput_unmapped_step_zero :
    GoMap.get (batch "z" "s1").TimelineRecordId statusZ.Statuses = some ⟨⟨3, "z"⟩, jobZ⟩ ∧
    GoMap.get (batch "z" "s1").StepRecordId statusZ.StepNumbers = none ∧
    runOutput statusZ (batch "z" "s1") =
      ⟨sampleRun, "Z", "Set up job", 0, false, ["hello"]⟩ ∧
    (run [.recv statusZ (batch "z" "s1")]).1 =
      [⟨sampleRun, "Z", "Set up job", 0, false, ["hello"]⟩] := by
  refine ⟨by decide, by decide, by decide, by decide⟩

/-- C4, at the scenario with an unmapped step record: "build", assumed. -/
theorem run_unmapped_witness :
    (run [.recv statusA (batch "a" "s1")]).1 =
      [⟨sampleRun, "A", "build", 2, true, ["hello"]⟩] ∧
    ∃ ev, (run [.recv statusA (batch "a" "s1")]).1 = ev :: (run []).1 ∧
      ev.AssumedStepName = true ∧ ev.JobName = "A" := by
  refine ⟨by decide, ?_⟩
  obtain ⟨ev, h1, _, h2, h3, _⟩ :=
    run_unmapped statusA (batch "a" "s1") ⟨⟨1, "a"⟩, jobA⟩ [] rfl (by decide) rfl
  exact ⟨ev, h1, h2, h3⟩

/-- C5, at a batch of the unknown job stream "q". -/
theorem run_unknown_job_witness :
    (run [.recv statusA (batch "q" "s2")]).1 =
      [⟨sampleRun, "?", "?", 0, true, ["hello"]⟩] :=
  run_unknown_job statusA (batch "q" "s2") [] rfl

theorem anyNotComplete_true (st : List (String × jobStatus)) : anyNotComplete st true = true := by
  induction st with
  | nil => rfl
  | cons p st ih =>
    obtain ⟨k, status⟩ := p
    simp only [anyNotComplete]
    split <;> exact ih

theorem anyNotComplete_of_exists (st : List (String × jobStatus)) :
    ∀ acc : Bool, (∃ p ∈ st, p.2.Job.Status ≠ "completed") → anyNotComplete st acc = true := by
  induction st with
  | nil => intro acc h; obtain ⟨p, hp, _⟩ := h; cases hp
  | cons p st ih =>
    intro acc h
    obtain ⟨k, status⟩ := p
    by_cases hs : status.Job.Status = "completed"
    · simp only [anyNotComplete, hs, ne_eq, not_true_eq_false, if_false]
      apply ih
      obtain ⟨q, hq, hne⟩ := h
      rcases List.mem_cons.mp hq with rfl | hq
      · exact absurd hs hne
      · exact ⟨q, hq, hne⟩
    · simp only [anyNotComplete, ne_eq, hs, not_false_eq_true, if_true]
      exact anyNotComplete_true st

theorem logsWait_ne_early (tasks : List (Option GoError)) (err : Option GoError) (m : Nat) :
    logsWait tasks ≠ .early err m := by
  unfold logsWait
  split
  · simp
  · split
    · simp
    · split <;> simp

theorem populateRunStatus_ok_run (f : Fetched) (rs rs1 : runStatus) (r : WorkflowRun)
    (hok : populateRunStatus f rs = .ok rs1) (hr : f.run = .ok r) : rs1.run = some r := by
  unfold populateRunStatus at hok
  rw [hr] at hok
  split at hok
  · cases hok
  · simp only at hok
    split at hok
    · cases hok
    · split at hok
      · cases hok
      · cases hok
        rfl

theorem logsPoll_not_early_nil (tasks : String → runStatus → List (Option GoError))
    (fetches : List Fetched) :
    ∀ (rs : runStatus) (n m : Nat), logsPoll tasks fetches rs n ≠ .early none m := by
  induction fetches with
  | nil =>
    intro rs n m
    unfold logsPoll
    split
    · exact logsWait_ne_early _ _ _
    · simp
  | cons f rest ih =>
    intro rs n m
    unfold logsPoll
    split
    · exact logsWait_ne_early _ _ _
    · split
      · simp
      · simp
      · exact ih _ _ _

/-- C7 (as amended): after the initial successful refresh, `Logs` returns nil at once, before
any stream URL is resolved, if and only if the status of the run object equals "completed";
it returns nil before the streams at no later refresh. -/
theorem Logs_early_iff (run : Run) (tasks : String → runStatus → List (Option GoError))
    (f : Fetched) (rest : List Fetched) (rs1 : runStatus) (r : WorkflowRun)
    (hok : populateRunStatus f ⟨run, [], [], none⟩ = .ok rs1) (hr : f.run = .ok r) :
    (Logs run tasks (f :: rest) = .early none 1 ↔ r.Status = "completed") ∧
    (∀ n, Logs run tasks (f :: rest) = .early none n → n = 1) := by
  have hrun := populateRunStatus_ok_run f _ rs1 r hok hr
  by_cases hs : r.Status = "completed"
  · have hL : Logs run tasks (f :: rest) = .early none 1 := by
      simp [Logs, hok, hrun, hs]
    refine ⟨⟨fun _ => hs, fun _ => hL⟩, ?_⟩
    intro n hn
    rw [hL] at hn
    cases hn
    rfl
  · have hL : Logs run tasks (f :: rest) = logsPoll tasks rest rs1 1 := by
      simp [Logs, hok, hrun, hs]
    refine ⟨⟨fun h => ?_, fun h => absurd h hs⟩, ?_⟩
    · rw [hL] at h
      exact absurd h (logsPoll_not_early_nil tasks rest rs1 1 1)
    · intro n hn
      rw [hL] at hn
      exact absurd hn (logsPoll_not_early_nil tasks rest rs1 1 n)

/-- C7, at a run object of status "completed". -/
theorem Logs_early_iff_witness :
    (Logs sampleRun (fun _ _ => []) [fetchedRunDone] = .early none 1 ↔
      (⟨"completed", 9⟩ : WorkflowRun).Status = "completed") ∧
    (∀ n, Logs sampleRun (fun _ _ => []) [fetchedRunDone] = .early none n → n = 1) :=
  Logs_early_iff sampleRun (fun _ _ => []) fetchedRunDone []
    ⟨sampleRun, [("a", ⟨⟨1, "a"⟩, jobA⟩)], [], some ⟨"completed", 9⟩⟩ ⟨"completed", 9⟩
    (by decide) rfl

/-- C7 (as stated) fails in both directions: with a run object of status "completed" and a
job that is not completed, `Logs` returns nil at once; with every job completed under a run
object that is not, `Logs` does not return and polls again. -/
theorem Logs_early_tests_run_status :
    (Logs sampleRun (fun _ _ => []) [fetchedRunDone] = .early none 1 ∧
      ¬ (∀ j ∈ [jobA], j.Status = "completed")) ∧
    (Logs sampleRun (fun _ _ => []) [fetchedB] = .polling ∧
      ∀ j ∈ [jobB], j.Status = "completed") := by
  refine ⟨⟨by decide, by decide⟩, by decide, by decide⟩

end ghlogs

namespace signalr

theorem handleParts_eq {T : Type} (decode : List UInt8 → Except GoError (websocketMessage T))
    (parts : List (List UInt8)) :
    handleParts decode parts =
      (invocationArguments decode
        ((parts.filter (fun part =>
          !decide (part.length = 0 ∨ part = bytesOf "\x7b\x7d"))).takeWhile (goesOn decode)),
       stopAt decode
        ((parts.filter (fun part =>
          !decide (part.length = 0 ∨ part = bytesOf "\x7b\x7d"))).dropWhile (goesOn decode))) := by
  induction parts with
  | nil => rfl
  | cons part rest ih =>
    by_cases hskip : part.length = 0 ∨ part = bytesOf "\x7b\x7d"
    · rw [handleParts, if_pos hskip, ih, List.filter_cons_of_neg (by
        simp only [Bool.not_eq_true', decide_eq_false_iff_not, not_not]; exact hskip)]
    · rw [handleParts, if_neg hskip, List.filter_cons_of_pos (by
        simp only [Bool.not_eq_true', decide_eq_false_iff_not]; exact hskip)]
      cases hd : decode part with
      | error err =>
        have hgo : goesOn decode part = false := by simp [goesOn, hd]
        simp [List.takeWhile, List.dropWhile, hgo, invocationArguments, stopAt, hd]
      | ok message =>
        by_cases h1 : message.Type_ = MessageTypeInvocation
        · have hgo : goesOn decode part = true := by
            simp [goesOn, hd, h1, MessageTypeInvocation, MessageTypeClose]
          simp [List.takeWhile, List.dropWhile, hgo, invocationArguments, hd, h1, ih]
        · by_cases h7 : message.Type_ = MessageTypeClose
          · have hgo : goesOn decode part = false := by simp [goesOn, hd, h7]
            have hne : MessageTypeClose ≠ MessageTypeInvocation := by decide
            simp [List.takeWhile, List.dropWhile, hgo, invocationArguments, stopAt, hd, h7, hne]
          · have hgo : goesOn decode part = true := by simp [goesOn, hd, h7]
            simp [List.takeWhile, List.dropWhile, hgo, invocationArguments, hd, h1, h7, ih]

theorem handleMessage_dispatch {T : Type}
    (decode : List UInt8 → Except GoError (websocketMessage T)) (wsMessage : List UInt8) :
    handleMessage decode wsMessage =
      (invocationArguments decode ((frames wsMessage).takeWhile (goesOn decode)),
       stopAt decode ((frames wsMessage).dropWhile (goesOn decode))) := by
  rw [handleMessage, handleParts_eq, frames]

theorem takeWhile_stop {α : Type} (p : α → Bool) (before after : List α) (stop : α)
    (hbefore : ∀ x ∈ before, p x = true) (hstop : p stop = false) :
    (before ++ stop :: after).takeWhile p = before ∧
      (before ++ stop :: after).dropWhile p = stop :: after := by
  induction before with
  | nil => simp [List.takeWhile, List.dropWhile, hstop]
  | cons x before ih =>
    have hx : p x = true := hbefore x (List.mem_cons_self _ _)
    have h := ih (fun y hy => hbefore y (List.mem_cons_of_mem _ hy))
    simp [List.takeWhile, List.dropWhile, hx, h.1, h.2]

theorem takeWhile_all {α : Type} (p : α → Bool) (l : List α) (h : ∀ x ∈ l, p x = true) :
    l.takeWhile p = l ∧ l.dropWhile p = [] := by
  induction l with
  | nil => simp
  | cons x l ih =>
    have hx : p x = true := h x (List.mem_cons_self _ _)
    have h1 := ih (fun y hy => h y (List.mem_cons_of_mem _ hy))
    simp [List.takeWhile, List.dropWhile, hx, h1.1, h1.2]

theorem handleMessage_goesOn {T : Type}
    (decode : List UInt8 → Except GoError (websocketMessage T)) (wsMessage : List UInt8)
    (h : ∀ part ∈ frames wsMessage, goesOn decode part = true) :
    handleMessage decode wsMessage = (invocationArguments decode (frames wsMessage), none) := by
  rw [handleMessage_dispatch, (takeWhile_all _ _ h).1, (takeWhile_all _ _ h).2]
  rfl

theorem handleMessage_stop {T : Type}
    (decode : List UInt8 → Except GoError (websocketMessage T)) (wsMessage : List UInt8)
    (before after : List (List UInt8)) (stop : List UInt8)
    (hframes : frames wsMessage = before ++ stop :: after)
    (hbefore : ∀ part ∈ before, goesOn decode part = true)
    (hstop : goesOn decode stop = false) :
    handleMessage decode wsMessage =
      (invocationArguments decode before, stopAt decode (stop :: after)) := by
  rw [handleMessage_dispatch, hframes, (takeWhile_stop _ before after stop hbefore hstop).1,
    (takeWhile_stop _ before after stop hbefore hstop).2]

theorem readLoop_earlier {T : Type}
    (decode : List UInt8 → Except GoError (websocketMessage T))
    (earlier : List (List UInt8)) (rest : List (Except GoError (List UInt8)))
    (h : ∀ m ∈ earlier, ∀ part ∈ frames m, goesOn decode part = true) :
    readLoop decode (earlier.map Except.ok ++ rest) =
      (earlier.flatMap (fun m => invocationArguments decode (frames m)) ++
        (readLoop decode rest).1, (readLoop decode rest).2) := by
  induction earlier with
  | nil => simp
  | cons m earlier ih =>
    have hm := handleMessage_goesOn decode m (h m (List.mem_cons_self _ _))
    have hrest := ih (fun m' hm' => h m' (List.mem_cons_of_mem _ hm'))
    simp only [List.map_cons, List.cons_append, readLoop, hm, List.flatMap_cons,
      List.append_assoc, List.append_eq, hrest]

/-- C8 (as amended): `Connect`, once the subscription is written, handles each inbound message
in turn: the message is split on byte 0x1E, empty parts and parts equal to `{}` are skipped,
and the remaining frames are handled in order up to the first frame that is a Close (type 7)
or fails to decode. The elements delivered are exactly the arguments of the Invocation (type
1) frames before that frame, in frame and argument order, after those of the earlier
messages; Ping and every other type deliver nothing and raise no error. At a Close the
connector returns nil, at a frame that fails to decode it returns that error, and later
frames are not delivered; after a message without such a frame it reads on: it waits for
the next message, or returns the error of the read. -/
theorem Connect_dispatch {T : Type}
    (decode : List UInt8 → Except GoError (websocketMessage T))
    (target tenantId realRunId : String) (s : Session)
    (earlier : List (List UInt8)) (wsMessage : List UInt8)
    (later : List (Except GoError (List UInt8)))
    (hdial : s.dial = none) (hparse : s.parse = .ok (tenantId, realRunId))
    (hw1 : s.write1 = none) (hw2 : s.write2 = none)
    (hreads : s.reads = earlier.map Except.ok ++ .ok wsMessage :: later)
    (hearlier : ∀ m ∈ earlier, ∀ part ∈ frames m, goesOn decode part = true) :
    (∀ (before after : List (List UInt8)) (stop : List UInt8),
      frames wsMessage = before ++ stop :: after →
      (∀ part ∈ before, goesOn decode part = true) →
      ((∀ message, decode stop = .ok message → message.Type_ = MessageTypeClose →
        (Connect decode target s).delivered =
            earlier.flatMap (fun m => invocationArguments decode (frames m)) ++
              invocationArguments decode before ∧
          (Connect decode target s).result = some none) ∧
       (∀ err, decode stop = .error err →
        (Connect decode target s).delivered =
            earlier.flatMap (fun m => invocationArguments decode (frames m)) ++
              invocationArguments decode before ∧
          (Connect decode target s).result = some (some (.withStack err))))) ∧
    ((∀ part ∈ frames wsMessage, goesOn decode part = true) →
      (Connect decode target s).delivered =
          earlier.flatMap (fun m => invocationArguments decode (frames m)) ++
            invocationArguments decode (frames wsMessage) ++
            (readLoop decode later).1 ∧
        (later = [] → (Connect decode target s).result = none) ∧
        (∀ err rest, later = .error err :: rest →
          (Connect decode target s).delivered =
              earlier.flatMap (fun m => invocationArguments decode (frames m)) ++
                invocationArguments decode (frames wsMessage) ∧
            (Connect decode target s).result = some (some (.withStack err)))) := by
  have hd : (Connect decode target s).delivered = (readLoop decode s.reads).1 := by
    simp only [Connect, hdial, hparse, hw1, hw2]
  have hr : (Connect decode target s).result = (readLoop decode s.reads).2 := by
    simp only [Connect, hdial, hparse, hw1, hw2]
  rw [hd, hr, hreads, readLoop_earlier decode earlier _ hearlier]
  refine ⟨?_, ?_⟩
  · intro before after stop hframes hbefore
    refine ⟨?_, ?_⟩
    · intro message hdec htype
      have hstop : goesOn decode stop = false := by simp [goesOn, hdec, htype]
      have hm := handleMessage_stop decode wsMessage before after stop hframes hbefore hstop
      simp [readLoop, hm, stopAt, hdec]
    · intro err hdec
      have hstop : goesOn decode stop = false := by simp [goesOn, hdec]
      have hm := handleMessage_stop decode wsMessage before after stop hframes hbefore hstop
      simp [readLoop, hm, stopAt, hdec]
  · intro hall
    have hm := handleMessage_goesOn decode wsMessage hall
    refine ⟨?_, ?_, ?_⟩
    · simp [readLoop, hm]
    · intro hl
      subst hl
      simp [readLoop, hm]
    · intro err rest hl
      subst hl
      simp [readLoop, hm]

/-- C8, at a session that reads a message with one Invocation and then a message with an
Invocation, a Close and another Invocation: 5 and 5 are delivered and nil is returned. -/
theorem Connect_dispatch_witness :
    (Connect sampleUnmarshal "WatchRunAsync" closingSession).delivered = [5, 5] ∧
    (Connect sampleUnmarshal "WatchRunAsync" closingSession).result = some none ∧
    (readLoop sampleUnmarshal closingSession.reads).1.length = 2 :=
  have h := (Connect_dispatch sampleUnmarshal "WatchRunAsync" "t" "5" closingSession
    [invocationMessage] closeMessage [.ok invocationMessage] rfl rfl rfl rfl rfl
    (by decide)).1
    [bytesOf "\x7b\"type\":1,\"arguments\":[5]\x7d"]
    [bytesOf "\x7b\"type\":1,\"arguments\":[5]\x7d"]
    (bytesOf "\x7b\"type\":7\x7d") (by decide) (by decide)
  ⟨(h.1 ⟨7, "", []⟩ rfl rfl).1, (h.1 ⟨7, "", []⟩ rfl rfl).2, by decide⟩

/-- C8 (as stated) fails on a message with a part that does not decode: of the frames `x`,
Invocation [5], Close, the connector delivers nothing and returns the decoding error, where
the claim has it deliver 5 and return nil at the Close. -/
theorem handleMessage_malformed_part :
    (frames sampleMessage).map (fun part =>
        match sampleUnmarshal part with
        | .ok message => some (message.Type_, message.Arguments)
        | .error _ => none) = [none, some (1, [5]), some (7, [])] ∧
    handleMessage sampleUnmarshal sampleMessage =
      ([], some (some (.withStack
        (.other "invalid character 'x' looking for beginning of value")))) ∧
    (Connect sampleUnmarshal "WatchRunAsync" sampleSession).delivered = [] ∧
    (Connect sampleUnmarshal "WatchRunAsync" sampleSession).result =
      some (some (.withStack
        (.other "invalid character 'x' looking for beginning of value"))) := by
  refine ⟨by decide, by decide, by decide, by decide⟩

end signalr

namespace signalr

theorem Sprintf_subscribeFormat (tenantId realRunId target : String) :
    String.mk (Sprintf subscribeFormat.data [tenantId, realRunId, target]) =
      "\x7b\"arguments\":[\"" ++ tenantId ++ "\"," ++ realRunId ++ "],\"target\":\"" ++
        target ++ "\",\"type\":1\x7d" := by
  apply String.ext
  simp [subscribeFormat, Sprintf]

/-- C9 (as amended): when the dial, the parse of the URL and both writes succeed, the second
frame written by `Connect` is exactly the bytes of
{"arguments":["<tenantId>",<runId>],"target":"<targetMethod>","type":1}, the tenantId between
double quotes and the runId copied as it is, without quotes, followed by the single delimiter
byte 0x1E; the first frame is the handshake. -/
theorem Connect_subscribe_frame {T : Type}
    (decode : List UInt8 → Except GoError (websocketMessage T))
    (tenantId realRunId target : String) (s : Session)
    (hdial : s.dial = none) (hparse : s.parse = .ok (tenantId, realRunId))
    (hw1 : s.write1 = none) (hw2 : s.write2 = none) :
    (Connect decode target s).written =
      [bytesOf "\x7b\"protocol\":\"json\",\"version\":1\x7d" ++ [0x1E],
       bytesOf ("\x7b\"arguments\":[\"" ++ tenantId ++ "\"," ++ realRunId ++
          "],\"target\":\"" ++ target ++ "\",\"type\":1\x7d") ++ [0x1E]] := by
  simp only [Connect, hdial, hparse, hw1, hw2, subscribeFrame, Sprintf_subscribeFormat,
    handshakeFrame, jsonTerminator]

/-- C9, at tenantId "t", runId "5" and target "WatchRunAsync". -/
theorem Connect_subscribe_frame_witness :
    (Connect sampleUnmarshal "WatchRunAsync" sampleSession).written =
      [bytesOf "\x7b\"protocol\":\"json\",\"version\":1\x7d" ++ [0x1E],
       bytesOf ("\x7b\"arguments\":[\"" ++ "t" ++ "\"," ++ "5" ++
          "],\"target\":\"" ++ "WatchRunAsync" ++ "\",\"type\":1\x7d") ++ [0x1E]] :=
  Connect_subscribe_frame sampleUnmarshal "t" "5" "WatchRunAsync" sampleSession rfl rfl rfl rfl

/-- C9 (as stated) fails: for tenantId "t", runId "5" and target "m" the second frame
written is {"arguments":["t",5],"target":"m","type":1} and the delimiter, the runId without
quotes, not {"arguments":["t","5"],"target":"m","type":1}. -/
theorem Connect_runId_unquoted :
    (Connect sampleUnmarshal "m" sampleSession).written.tail =
      [bytesOf "\x7b\"arguments\":[\"t\",5],\"target\":\"m\",\"type\":1\x7d" ++ [0x1E]] ∧
    (Connect sampleUnmarshal "m" sampleSession).written.tail ≠
      [bytesOf "\x7b\"arguments\":[\"t\",\"5\"],\"target\":\"m\",\"type\":1\x7d" ++ [0x1E]] := by
  refine ⟨by decide, by decide⟩

end signalr

namespace ghlogs

/-- C10: when the first k connections end in a connection reset and the next outcome is not
a connection reset (another error, or nil), every resolution succeeding, `retryWithWsUrl`
returns that outcome after exactly k+1 resolutions and k+1 connections, each connection made
to the URL just resolved; and when, after k connection resets, the resolution fails, the
resolver's error is returned at once, after k+1 resolutions and k connections. -/
theorem retryWithWsUrl_policy (attempts : List (String × (String → Option GoError)))
    (hreset : ∀ a ∈ attempts, isConnReset (a.2 a.1) = true) :
    (∀ (wsUrl : String) (fn : String → Option GoError)
        (resolutions : List (Except GoError String)) (fns : List (String → Option GoError)),
      isConnReset (fn wsUrl) = false →
      retryWithWsUrl (attempts.map (fun a => .ok a.1) ++ .ok wsUrl :: resolutions)
          (attempts.map (fun a => a.2) ++ fn :: fns) =
        some ⟨fn wsUrl, attempts.length + 1, attempts.map (fun a => a.1) ++ [wsUrl]⟩) ∧
    (∀ (err : GoError) (resolutions : List (Except GoError String))
        (fns : List (String → Option GoError)),
      retryWithWsUrl (attempts.map (fun a => .ok a.1) ++ .error err :: resolutions)
          (attempts.map (fun a => a.2) ++ fns) =
        some ⟨some err, attempts.length + 1, attempts.map (fun a => a.1)⟩) := by
  induction attempts with
  | nil =>
    refine ⟨?_, ?_⟩
    · intro wsUrl fn resolutions fns hlast
      simp [retryWithWsUrl, hlast]
    · intro err resolutions fns
      simp [retryWithWsUrl]
  | cons a attempts ih =>
    have ha : isConnReset (a.2 a.1) = true := hreset a (List.mem_cons_self _ _)
    obtain ⟨ih1, ih2⟩ := ih (fun b hb => hreset b (List.mem_cons_of_mem _ hb))
    refine ⟨?_, ?_⟩
    · intro wsUrl fn resolutions fns hlast
      simp [retryWithWsUrl, ha, ih1 wsUrl fn resolutions fns hlast]
    · intro err resolutions fns
      simp [retryWithWsUrl, ha, ih2 err resolutions fns]

/-- C10, at two connection resets followed by nil, and by a failed resolution. -/
theorem retryWithWsUrl_policy_witness :
    retryWithWsUrl [.ok "u1", .ok "u2", .ok "u3"]
        [fun _ => some (.withStack (.wrapped "read tcp" GoError.ECONNRESET)),
         fun _ => some GoError.ECONNRESET, fun _ => none] =
      some ⟨none, 3, ["u1", "u2", "u3"]⟩ ∧
    retryWithWsUrl [.ok "u1", .ok "u2", .error (.other "didn't get url after multiple attempts")]
        [fun _ => some (.withStack (.wrapped "read tcp" GoError.ECONNRESET)),
         fun _ => some GoError.ECONNRESET] =
      some ⟨some (.other "didn't get url after multiple attempts"), 3, ["u1", "u2"]⟩ :=
  have h := retryWithWsUrl_policy
    [("u1", fun _ => some (.withStack (.wrapped "read tcp" GoError.ECONNRESET))),
     ("u2", fun _ => some GoError.ECONNRESET)] (by decide)
  ⟨h.1 "u3" (fun _ => none) [] [] rfl,
   h.2 (.other "didn't get url after multiple attempts") [] []⟩

end ghlogs

namespace GoMap

theorem keys_set_of_get {κ ν : Type} [DecidableEq κ] (k : κ) (v x : ν) (m : List (κ × ν))
    (h : get k m = some x) : (set k v m).map Prod.fst = m.map Prod.fst := by
  induction m with
  | nil => simp [get] at h
  | cons p m ih =>
    obtain ⟨k1, v1⟩ := p
    by_cases h1 : k1 = k
    · subst h1
      simp [set]
    · simp only [get, h1, if_false] at h
      simp [set, h1, ih h]

theorem get_set_isSome {κ ν : Type} [DecidableEq κ] (k k' : κ) (v : ν) (m : List (κ × ν))
    (h : (get k' m).isSome) : (get k' (set k v m)).isSome := by
  by_cases hk : k = k'
  · subst hk
    rw [get_set_self]
    rfl
  · rw [get_set_ne _ _ _ _ hk]
    exact h

end GoMap

namespace ghlogs

theorem mergeJobs_get (byId : List (Int × CheckRun)) (k : String) (J : List WorkflowJob) :
    ∀ st st' : List (String × jobStatus), mergeJobs byId J st = some st' →
      GoMap.get k st' = mergedEntry byId k J (GoMap.get k st) := by
  induction J with
  | nil =>
    intro st st' h
    simp only [mergeJobs, Option.some.injEq] at h
    rw [← h, mergedEntry]
  | cons j J ih =>
    intro st st' h
    cases hc : GoMap.get j.ID byId with
    | none => simp [mergeJobs, hc] at h
    | some c =>
      simp only [mergeJobs, hc] at h
      rw [ih _ _ h]
      simp only [mergedEntry, hc]
      by_cases hk : c.ExternalID = k
      · subst hk
        rw [GoMap.get_set_self, if_pos rfl]
      · rw [GoMap.get_set_ne _ _ _ _ hk, if_neg hk]

theorem mergedEntry_fixed (byId : List (Int × CheckRun)) (k : String) (J : List WorkflowJob) :
    ∀ e : Option jobStatus, mergedEntry byId k J e = e ∨
      ∀ e' : Option jobStatus, mergedEntry byId k J e' = mergedEntry byId k J e := by
  induction J with
  | nil => intro e; exact Or.inl rfl
  | cons j J ih =>
    intro e
    cases hc : GoMap.get j.ID byId with
    | none =>
      simp only [mergedEntry, hc]
      exact ih e
    | some c =>
      simp only [mergedEntry, hc]
      by_cases hk : c.ExternalID = k
      · simp [hk]
      · simp only [hk, if_false]
        exact ih e

theorem mergedEntry_idem (byId : List (Int × CheckRun)) (k : String) (J : List WorkflowJob)
    (e : Option jobStatus) :
    mergedEntry byId k J (mergedEntry byId k J e) = mergedEntry byId k J e := by
  rcases mergedEntry_fixed byId k J e with h | h
  · rw [h, h]
  · exact h _

theorem mergeJobs_again (byId : List (Int × CheckRun)) (J : List WorkflowJob) :
    ∀ st st' : List (String × jobStatus), mergeJobs byId J st = some st' →
      ∀ st2 : List (String × jobStatus), ∃ st3, mergeJobs byId J st2 = some st3 := by
  induction J with
  | nil => intro st st' _ st2; exact ⟨st2, rfl⟩
  | cons j J ih =>
    intro st st' h st2
    cases hc : GoMap.get j.ID byId with
    | none => simp [mergeJobs, hc] at h
    | some c =>
      simp only [mergeJobs, hc] at h ⊢
      exact ih _ _ h _

theorem mergeJobs_keeps (byId : List (Int × CheckRun)) (k : String) (J : List WorkflowJob) :
    ∀ st st' : List (String × jobStatus), mergeJobs byId J st = some st' →
      (GoMap.get k st).isSome → (GoMap.get k st').isSome := by
  induction J with
  | nil =>
    intro st st' h hk
    simp only [mergeJobs, Option.some.injEq] at h
    rw [← h]
    exact hk
  | cons j J ih =>
    intro st st' h hk
    cases hc : GoMap.get j.ID byId with
    | none => simp [mergeJobs, hc] at h
    | some c =>
      simp only [mergeJobs, hc] at h
      exact ih _ _ h (GoMap.get_set_isSome _ _ _ _ hk)

theorem mergeJobs_present (byId : List (Int × CheckRun)) (J : List WorkflowJob) :
    ∀ st st' : List (String × jobStatus), mergeJobs byId J st = some st' →
      ∀ j ∈ J, ∀ c, GoMap.get j.ID byId = some c → (GoMap.get c.ExternalID st').isSome := by
  induction J with
  | nil => intro st st' _ j hj; cases hj
  | cons x J ih =>
    intro st st' h j hj c hc
    cases hx : GoMap.get x.ID byId with
    | none => simp [mergeJobs, hx] at h
    | some cx =>
      simp only [mergeJobs, hx] at h
      rcases List.mem_cons.mp hj with rfl | hj
      · rw [hx] at hc
        cases hc
        apply mergeJobs_keeps _ _ _ _ _ h
        rw [GoMap.get_set_self]
        rfl
      · exact ih _ _ h j hj c hc

theorem mergeJobs_keys (byId : List (Int × CheckRun)) (J : List WorkflowJob) :
    ∀ st st' : List (String × jobStatus), mergeJobs byId J st = some st' →
      (∀ j ∈ J, ∀ c, GoMap.get j.ID byId = some c → (GoMap.get c.ExternalID st).isSome) →
      st'.map Prod.fst = st.map Prod.fst := by
  induction J with
  | nil =>
    intro st st' h _
    simp only [mergeJobs, Option.some.injEq] at h
    rw [h]
  | cons x J ih =>
    intro st st' h hp
    cases hx : GoMap.get x.ID byId with
    | none => simp [mergeJobs, hx] at h
    | some cx =>
      simp only [mergeJobs, hx] at h
      have hsome := hp x (List.mem_cons_self _ _) cx hx
      obtain ⟨v, hv⟩ := Option.isSome_iff_exists.mp hsome
      rw [ih _ _ h (fun j hj c hc =>
        GoMap.get_set_isSome _ _ _ _ (hp j (List.mem_cons_of_mem _ hj) c hc)),
        GoMap.keys_set_of_get _ _ _ _ hv]

theorem populateRunStatus_ok_inv (f : Fetched) (rs rs1 : runStatus)
    (hok : populateRunStatus f rs = .ok rs1) :
    ∃ J r C st, f.jobs = .ok J ∧ f.run = .ok r ∧ f.suite = .ok C ∧
      mergeJobs (checkRunsById C []) J rs.Statuses = some st ∧
      rs1 = { rs with run := some r, Statuses := st } := by
  unfold populateRunStatus at hok
  cases hj : f.jobs with
  | error e => simp [hj] at hok
  | ok J =>
    cases hr : f.run with
    | error e => simp [hj, hr] at hok
    | ok r =>
      cases hs : f.suite with
      | error e => simp [hj, hr, hs] at hok
      | ok C =>
        simp only [hj, hr, hs] at hok
        cases hm : mergeJobs (checkRunsById C []) J rs.Statuses with
        | none => simp [hm] at hok
        | some st =>
          simp only [hm, Refreshed.ok.injEq] at hok
          exact ⟨J, r, C, st, rfl, rfl, rfl, hm, hok.symm⟩

/-- C13: when a refresh succeeds, the same refresh applied again to the state it left
succeeds too and leaves the job map with the same keys (the same list of keys, so the same
size) and the same entry at every key; the stepNumber map is the one before the refreshes. -/
theorem populateRunStatus_idempotent (f : Fetched) (rs rs1 : runStatus)
    (hok : populateRunStatus f rs = .ok rs1) :
    ∃ rs2, populateRunStatus f rs1 = .ok rs2 ∧
      (∀ k, GoMap.get k rs2.Statuses = GoMap.get k rs1.Statuses) ∧
      rs2.Statuses.map Prod.fst = rs1.Statuses.map Prod.fst ∧
      rs2.StepNumbers = rs1.StepNumbers ∧ rs1.StepNumbers = rs.StepNumbers := by
  obtain ⟨J, r, C, st, hj, hr, hs, hm, rfl⟩ := populateRunStatus_ok_inv f rs rs1 hok
  obtain ⟨st2, hm2⟩ := mergeJobs_again _ J _ _ hm st
  refine ⟨{ rs with run := some r, Statuses := st2 }, ?_, ?_, ?_, rfl, rfl⟩
  · simp only [populateRunStatus, hj, hr, hs, hm2]
  · intro k
    show GoMap.get k st2 = GoMap.get k st
    rw [mergeJobs_get _ k J _ _ hm2, mergeJobs_get _ k J _ _ hm, mergedEntry_idem]
  · show st2.map Prod.fst = st.map Prod.fst
    exact mergeJobs_keys _ J _ _ hm2 (mergeJobs_present _ J _ _ hm)

/-- C13, at jobs A and B refreshed twice from the fresh state. -/
theorem populateRunStatus_idempotent_witness :
    ∃ rs2, populateRunStatus fetchedAB
        ⟨sampleRun, [("a", ⟨⟨1, "a"⟩, jobA⟩), ("b", ⟨⟨2, "b"⟩, jobB⟩)], [],
          some ⟨"in_progress", 9⟩⟩ = .ok rs2 ∧
      (∀ k, GoMap.get k rs2.Statuses =
        GoMap.get k [("a", (⟨⟨1, "a"⟩, jobA⟩ : jobStatus)), ("b", ⟨⟨2, "b"⟩, jobB⟩)]) ∧
      rs2.Statuses.map Prod.fst = ["a", "b"] ∧
      rs2.StepNumbers = [] ∧ ([] : List (String × Int)) = freshStatus.StepNumbers :=
  populateRunStatus_idempotent fetchedAB freshStatus
    ⟨sampleRun, [("a", ⟨⟨1, "a"⟩, jobA⟩), ("b", ⟨⟨2, "b"⟩, jobB⟩)], [],
      some ⟨"in_progress", 9⟩⟩ (by decide)

end ghlogs

namespace ghlogs

/-- The test `req.URL.Host` of `do` panics on the nil request that a job name with a stray
`%` gives: `getWsUrl` ends in a panic before any request is made. -/
theorem getWsUrl_panics_on_bad_url :
    getWsUrl sampleDecoders sampleParses (netHttp idleEndpoints) sampleRun "A%zz" =
      ⟨.panicked, []⟩ := by
  simp [getWsUrl, phaseA, newRequest, «do», sampleParses, jobFragmentUrl]

end ghlogs
